import Mathlib

/-!
Verification of the section-partitioned todo-list state model of the
Eisenhower-matrix todo application.

The mutable state is a list of `TodoSection`s (the Partition).  The five
operations are embedded from the React component `TodoMatrix`
(`src/features/todo-matrix.tsx`):

* `handleAddTodo`     — add a new todo to the DO_FIRST section;
* `handleToggleTodo`  — toggle a todo's completion flag;
* `handleDeleteTodo`  — delete a todo by id;
* `handleUpdateTodo`  — replace a todo's text by id;
* `onDragEnd`         — the drag-and-drop move algorithm.

The modal components' submit guards (`AddTodoModal.handleSubmit`,
`EditTodoModal.handleSubmit`) are embedded as well, since they are the only
place where empty-text filtering happens.

JavaScript semantics captured here:
* `arr.splice(i, 1)` with `i < arr.length` removes the element at `i`
  (`List.eraseIdx`); with `i ≥ arr.length` it removes nothing, so the
  subsequent `movedTodo.priority = …` dereferences `undefined` and throws a
  `TypeError` — modelled as the `none` result of `onDragEnd`, with the React
  state left unchanged (nothing was removed and `setSections` is not reached).
* `arr.splice(i, 0, x)` clamps `i` to `arr.length`, i.e. inserts at
  `min i arr.length` (`spliceInsert` below: `take i ++ [x] ++ drop i`).
* `sections.find(s => s.id === X)` returns the first section whose id is `X`;
  the in-place mutations of that object are rendered as `setTodosFirst`,
  which rewrites the `todos` field of the first section with the given id.
* `TodoPriority` is a union of four string literals, but `onDragEnd` casts an
  arbitrary `droppableId` string into it, so ids are modelled as `String`.
-/

/-- A todo item (`Todo` in `src/types/todo.ts`): unique id, text content,
completion status and priority level. -/
structure Todo where
  id : String
  text : String
  completed : Bool
  priority : String
deriving DecidableEq, Repr

/-- A priority section (`TodoSection` in `src/types/todo.ts`): id matching a
priority, display title, color token, and the ordered list of todos. -/
structure TodoSection where
  id : String
  title : String
  color : String
  todos : List Todo
deriving DecidableEq, Repr

/-- The four fixed section ids, in display order. -/
def fixedSectionIds : List String :=
  ["DO_FIRST", "DO_LATER", "DELEGATE", "ELIMINATE"]

/-- The initial sections of the matrix (`initialSections` in
`src/features/todo-matrix.tsx`): the four fixed buckets, each with an empty
todo list. -/
def initialSections : List TodoSection :=
  [ ⟨"DO_FIRST", "DO FIRST", "bg-green-100", []⟩,
    ⟨"DO_LATER", "DO LATER", "bg-blue-100", []⟩,
    ⟨"DELEGATE", "DELEGATE", "bg-yellow-100", []⟩,
    ⟨"ELIMINATE", "ELIMINATE", "bg-red-100", []⟩ ]

/-- `handleAddTodo` from `src/features/todo-matrix.tsx`: build a new todo
(`completed = false`, `priority = "DO_FIRST"`) and append it to the todos of
every section whose id is `"DO_FIRST"`, leaving other sections untouched.
The fresh id produced by `crypto.randomUUID()` is passed in as `newId`. -/
def handleAddTodo (newId : String) (text : String)
    (sections : List TodoSection) : List TodoSection :=
  let newTodo : Todo := ⟨newId, text, false, "DO_FIRST"⟩
  sections.map fun sec =>
    if sec.id = "DO_FIRST" then
      { sec with todos := sec.todos ++ [newTodo] }
    else
      sec

/-- `handleToggleTodo` from `src/features/todo-matrix.tsx`: flip the
`completed` flag of the todo with the given id, wherever it appears. -/
def handleToggleTodo (todoId : String)
    (sections : List TodoSection) : List TodoSection :=
  sections.map fun sec =>
    { sec with
      todos := sec.todos.map fun todo =>
        if todo.id = todoId then { todo with completed := !todo.completed }
        else todo }

/-- `handleDeleteTodo` from `src/features/todo-matrix.tsx`: filter the todo
with the given id out of every section. -/
def handleDeleteTodo (todoId : String)
    (sections : List TodoSection) : List TodoSection :=
  sections.map fun sec =>
    { sec with todos := sec.todos.filter fun todo => todo.id ≠ todoId }

/-- `handleUpdateTodo` from `src/features/todo-matrix.tsx`: replace the text
of the todo with the given id, wherever it appears; everything else is kept. -/
def handleUpdateTodo (id : String) (newText : String)
    (sections : List TodoSection) : List TodoSection :=
  sections.map fun sec =>
    { sec with
      todos := sec.todos.map fun todo =>
        if todo.id = id then { todo with text := newText } else todo }

/-- JavaScript `String.prototype.trim`: remove leading and trailing
whitespace (an executable, structurally recursive model over the character
list, so that concrete instances evaluate). -/
def jsTrim (s : String) : String :=
  ⟨((s.data.dropWhile Char.isWhitespace).reverse.dropWhile
      Char.isWhitespace).reverse⟩

/-- `AddTodoModal.handleSubmit` (`src/components/add-todo-modal.tsx`): the
modal only invokes `onAdd` (= `handleAddTodo`) when `text.trim()` is truthy,
i.e. non-empty; otherwise nothing happens. -/
def addTodoModalSubmit (newId : String) (text : String)
    (sections : List TodoSection) : List TodoSection :=
  if jsTrim text = "" then sections else handleAddTodo newId text sections

/-- `EditTodoModal.handleSubmit` (edit-todo modal source): only invokes
`onEdit` (= `handleUpdateTodo`) when `text.trim()` is truthy and a todo is
being edited; otherwise nothing happens. -/
def editTodoModalSubmit (todo : Option String) (text : String)
    (sections : List TodoSection) : List TodoSection :=
  match todo with
  | none => sections
  | some todoId =>
      if jsTrim text = "" then sections
      else handleUpdateTodo todoId text sections

/-- `arr.splice(i, 0, x)`: insert `x` at position `i`, clamped to the length
of the list (JavaScript clamps an out-of-range start index to `arr.length`,
so over-long indices append at the end). -/
def spliceInsert (l : List Todo) (i : Nat) (t : Todo) : List Todo :=
  l.take i ++ t :: l.drop i

/-- Rewrite the `todos` field of the first section whose id is `bid` — the
pure rendering of the JavaScript in-place mutation of the section object
returned by `sections.find(s => s.id === bid)`. -/
def setTodosFirst (bid : String) (newTodos : List Todo) :
    List TodoSection → List TodoSection
  | [] => []
  | sec :: rest =>
      if sec.id = bid then { sec with todos := newTodos } :: rest
      else sec :: setTodosFirst bid newTodos rest

/-- A drag location as reported by the drag-and-drop library: a droppable
(section) id and an index within it. -/
structure DragLocation where
  droppableId : String
  index : Nat
deriving DecidableEq, Repr

/-- A drag-end result: source location and optional destination (absent when
the gesture was cancelled or dropped outside every droppable). -/
structure DragResult where
  source : DragLocation
  destination : Option DragLocation
deriving DecidableEq, Repr

/-- `onDragEnd` from `src/features/todo-matrix.tsx`.

* no destination → early return, state unchanged;
* source or destination section not found → early return, state unchanged;
* `sourceSection.todos.splice(source.index, 1)` removes the dragged todo when
  the index is in bounds; otherwise it removes nothing and the following
  `movedTodo.priority = …` throws a `TypeError` (`none` here, state unchanged);
* the moved todo's `priority` is set to the destination id, and the todo is
  spliced into the destination's list at `destination.index` (clamped);
* when source and destination ids coincide, both splices act on the same
  array, so the insertion happens in the post-removal list. -/
def onDragEnd (result : DragResult)
    (sections : List TodoSection) : Option (List TodoSection) :=
  match result.destination with
  | none => some sections
  | some destination =>
      match sections.find? (fun sec => sec.id = result.source.droppableId),
            sections.find? (fun sec => sec.id = destination.droppableId) with
      | some sourceSection, some destSection =>
          if h : result.source.index < sourceSection.todos.length then
            let movedTodo := sourceSection.todos.get ⟨result.source.index, h⟩
            let movedTodo := { movedTodo with priority := destination.droppableId }
            if sourceSection.id = destSection.id then
              let afterRemove := sourceSection.todos.eraseIdx result.source.index
              some (setTodosFirst sourceSection.id
                (spliceInsert afterRemove destination.index movedTodo) sections)
            else
              some (setTodosFirst destSection.id
                (spliceInsert destSection.todos destination.index movedTodo)
                (setTodosFirst sourceSection.id
                  (sourceSection.todos.eraseIdx result.source.index) sections))
          else
            none
      | _, _ => some sections

/-- A Partition in the sense of the spec: the four fixed buckets, in display
order, with their fixed titles and colors, holding the given todo lists. -/
def mkPartition (l1 l2 l3 l4 : List Todo) : List TodoSection :=
  [ ⟨"DO_FIRST", "DO FIRST", "bg-green-100", l1⟩,
    ⟨"DO_LATER", "DO LATER", "bg-blue-100", l2⟩,
    ⟨"DELEGATE", "DELEGATE", "bg-yellow-100", l3⟩,
    ⟨"ELIMINATE", "ELIMINATE", "bg-red-100", l4⟩ ]

/-- Total number of tasks over all sections of a partition. -/
def totalTodoCount (s : List TodoSection) : Nat :=
  (s.map fun sec => sec.todos.length).sum

/-- The denormalization invariant: every todo's `priority` field equals the
id of the section containing it. -/
def PriorityOk (s : List TodoSection) : Prop :=
  ∀ sec ∈ s, ∀ t ∈ sec.todos, t.priority = sec.id

/-- The identity (id, title, color) of a section — everything except the
todo list.  The frame of every section is fixed at initialization. -/
def sectionFrame (sec : TodoSection) : String × String × String :=
  (sec.id, sec.title, sec.color)

/-- The frames of the four sections created at process start. -/
def fixedFrames : List (String × String × String) :=
  initialSections.map sectionFrame

/-- The states reachable from `initialSections` by any sequence of
add / toggle / delete / updateText / move operations (a drag step only
produces a new state when `onDragEnd` completes without throwing). -/
inductive Reachable : List TodoSection → Prop
  | init : Reachable initialSections
  | add (newId text : String) {s : List TodoSection} :
      Reachable s → Reachable (handleAddTodo newId text s)
  | toggle (todoId : String) {s : List TodoSection} :
      Reachable s → Reachable (handleToggleTodo todoId s)
  | delete (todoId : String) {s : List TodoSection} :
      Reachable s → Reachable (handleDeleteTodo todoId s)
  | update (id newText : String) {s : List TodoSection} :
      Reachable s → Reachable (handleUpdateTodo id newText s)
  | drag (result : DragResult) {s s' : List TodoSection} :
      Reachable s → onDragEnd result s = some s' → Reachable s'

/-!
Allocation-instrumented model, for the frame/effect claim about referential
identity.  Every JavaScript object-spread `{...section, ...}` allocates a
fresh section object; reusing a binding reuses the object.  A
`TaggedSection` pairs the section value with the allocation tag of the
underlying object; operations thread a counter supplying fresh tags.
-/

/-- A section object together with its allocation identity. -/
structure TaggedSection where
  tag : Nat
  sec : TodoSection
deriving DecidableEq, Repr

/-- `sections.map(s => ({...s, ...}))`: the callback allocates a fresh
object for every element.  `f` is the per-section value transformation. -/
def taggedMapNew (f : TodoSection → TodoSection) :
    Nat → List TaggedSection → Nat × List TaggedSection
  | next, [] => (next, [])
  | next, ts :: rest =>
      let r := taggedMapNew f (next + 1) rest
      (r.1, ⟨next, f ts.sec⟩ :: r.2)

/-- `sections.map(s => p(s) ? {...s, ...} : s)`: the callback allocates a
fresh object only for elements satisfying `p`, and returns the very same
object otherwise. -/
def taggedMapCond (p : TodoSection → Bool) (f : TodoSection → TodoSection) :
    Nat → List TaggedSection → Nat × List TaggedSection
  | next, [] => (next, [])
  | next, ts :: rest =>
      if p ts.sec then
        let r := taggedMapCond p f (next + 1) rest
        (r.1, ⟨next, f ts.sec⟩ :: r.2)
      else
        let r := taggedMapCond p f next rest
        (r.1, ts :: r.2)

/-- Tagged `handleAddTodo`: only sections with id `"DO_FIRST"` are spread
into new objects; all others are returned as the same object. -/
def taggedAddTodo (newId text : String) (next : Nat)
    (l : List TaggedSection) : Nat × List TaggedSection :=
  taggedMapCond (fun sec => sec.id = "DO_FIRST")
    (fun sec => { sec with todos := sec.todos ++ [⟨newId, text, false, "DO_FIRST"⟩] })
    next l

/-- Tagged `handleToggleTodo`: every section is spread into a new object. -/
def taggedToggleTodo (todoId : String) (next : Nat)
    (l : List TaggedSection) : Nat × List TaggedSection :=
  taggedMapNew
    (fun sec =>
      { sec with
        todos := sec.todos.map fun todo =>
          if todo.id = todoId then { todo with completed := !todo.completed }
          else todo })
    next l

/-- Tagged `handleDeleteTodo`: every section is spread into a new object. -/
def taggedDeleteTodo (todoId : String) (next : Nat)
    (l : List TaggedSection) : Nat × List TaggedSection :=
  taggedMapNew
    (fun sec => { sec with todos := sec.todos.filter fun todo => todo.id ≠ todoId })
    next l

/-- Tagged `handleUpdateTodo`: every section is spread into a new object. -/
def taggedUpdateTodo (id newText : String) (next : Nat)
    (l : List TaggedSection) : Nat × List TaggedSection :=
  taggedMapNew
    (fun sec =>
      { sec with
        todos := sec.todos.map fun todo =>
          if todo.id = id then { todo with text := newText } else todo })
    next l

/-- In-place mutation of the `todos` array of the first section object with
the given id: the object keeps its allocation tag. -/
def setTodosFirstTagged (bid : String) (newTodos : List Todo) :
    List TaggedSection → List TaggedSection
  | [] => []
  | ts :: rest =>
      if ts.sec.id = bid then ⟨ts.tag, { ts.sec with todos := newTodos }⟩ :: rest
      else ts :: setTodosFirstTagged bid newTodos rest

/-- Tagged `onDragEnd`: identical control flow to `onDragEnd`, but the
mutations act on the existing section objects (`setTodosFirstTagged`
preserves tags) and `setSections([...sections])` allocates no new section
objects — only a new top-level array. -/
def taggedOnDragEnd (result : DragResult)
    (sections : List TaggedSection) : Option (List TaggedSection) :=
  match result.destination with
  | none => some sections
  | some destination =>
      match sections.find? (fun ts => ts.sec.id = result.source.droppableId),
            sections.find? (fun ts => ts.sec.id = destination.droppableId) with
      | some sourceSection, some destSection =>
          if h : result.source.index < sourceSection.sec.todos.length then
            let movedTodo := sourceSection.sec.todos.get ⟨result.source.index, h⟩
            let movedTodo := { movedTodo with priority := destination.droppableId }
            if sourceSection.sec.id = destSection.sec.id then
              let afterRemove := sourceSection.sec.todos.eraseIdx result.source.index
              some (setTodosFirstTagged sourceSection.sec.id
                (spliceInsert afterRemove destination.index movedTodo) sections)
            else
              some (setTodosFirstTagged destSection.sec.id
                (spliceInsert destSection.sec.todos destination.index movedTodo)
                (setTodosFirstTagged sourceSection.sec.id
                  (sourceSection.sec.todos.eraseIdx result.source.index) sections))
          else
            none
      | _, _ => some sections

/-!  Basic lemmas about the splice and first-section-update operations. -/

theorem length_spliceInsert (l : List Todo) (i : Nat) (t : Todo) :
    (spliceInsert l i t).length = l.length + 1 := by
  simp [spliceInsert]
  omega

theorem spliceInsert_of_le (l : List Todo) (i : Nat) (t : Todo)
    (h : l.length ≤ i) : spliceInsert l i t = l ++ [t] := by
  simp [spliceInsert, List.take_of_length_le h, List.drop_of_length_le h]

theorem spliceInsert_eraseIdx_get (l : List Todo) (i : Nat) (h : i < l.length) :
    spliceInsert (l.eraseIdx i) i (l.get ⟨i, h⟩) = l := by
  have hlen : (l.take i).length = i := by
    simp [List.length_take]
    omega
  unfold spliceInsert
  rw [List.eraseIdx_eq_take_drop_succ, List.take_left' hlen, List.drop_left' hlen]
  rw [List.get_eq_getElem, ← List.drop_eq_getElem_cons h, List.take_append_drop]

theorem mem_spliceInsert {l : List Todo} {i : Nat} {t x : Todo}
    (h : x ∈ spliceInsert l i t) : x = t ∨ x ∈ l := by
  simp only [spliceInsert, List.mem_append, List.mem_cons] at h
  rcases h with h | h | h
  · exact Or.inr (List.take_subset i l h)
  · exact Or.inl h
  · exact Or.inr (List.drop_subset i l h)

theorem mem_of_mem_eraseIdx {l : List Todo} {i : Nat} {x : Todo}
    (h : x ∈ l.eraseIdx i) : x ∈ l :=
  List.eraseIdx_subset l i h

theorem setTodosFirst_self (bid : String) (l : List TodoSection)
    (sec : TodoSection) (h : l.find? (fun s => s.id = bid) = some sec) :
    setTodosFirst bid sec.todos l = l := by
  induction l with
  | nil => simp at h
  | cons a rest ih =>
    rw [List.find?_cons] at h
    obtain ⟨aid, atitle, acolor, atodos⟩ := a
    by_cases ha : aid = bid
    · subst ha
      simp at h
      subst h
      simp [setTodosFirst]
    · simp [ha] at h
      simp [setTodosFirst, ha, ih h]

theorem find?_setTodosFirst_self (bid : String) (ts : List Todo)
    (l : List TodoSection) (sec : TodoSection)
    (h : l.find? (fun s => s.id = bid) = some sec) :
    (setTodosFirst bid ts l).find? (fun s => s.id = bid) =
      some { sec with todos := ts } := by
  induction l with
  | nil => simp at h
  | cons a rest ih =>
    rw [List.find?_cons] at h
    obtain ⟨aid, atitle, acolor, atodos⟩ := a
    by_cases ha : aid = bid
    · subst ha
      simp at h
      subst h
      simp [setTodosFirst, List.find?_cons]
    · simp [ha] at h
      simp [setTodosFirst, ha, List.find?_cons, ih h]

theorem find?_setTodosFirst_ne (bid bid' : String) (hne : bid' ≠ bid)
    (ts : List Todo) (l : List TodoSection) :
    (setTodosFirst bid ts l).find? (fun s => s.id = bid') =
      l.find? (fun s => s.id = bid') := by
  induction l with
  | nil => simp [setTodosFirst]
  | cons a rest ih =>
    obtain ⟨aid, atitle, acolor, atodos⟩ := a
    by_cases ha : aid = bid
    · subst ha
      have hne' : ¬ aid = bid' := fun hc => hne hc.symm
      simp [setTodosFirst, List.find?_cons, hne']
    · by_cases ha' : aid = bid'
      · subst ha'
        have hne'' : ¬ aid = bid := fun hc => hne hc
        simp [setTodosFirst, hne'', List.find?_cons]
      · simp [setTodosFirst, ha, List.find?_cons, ha', ih]

theorem setTodosFirst_setTodosFirst (bid : String) (ts ts' : List Todo)
    (l : List TodoSection) :
    setTodosFirst bid ts (setTodosFirst bid ts' l) = setTodosFirst bid ts l := by
  induction l with
  | nil => rfl
  | cons a rest ih =>
    obtain ⟨aid, atitle, acolor, atodos⟩ := a
    by_cases ha : aid = bid
    · subst ha
      simp [setTodosFirst]
    · simp [setTodosFirst, ha, ih]

theorem setTodosFirst_comm (bid bid' : String) (hne : bid ≠ bid')
    (ts ts' : List Todo) (l : List TodoSection) :
    setTodosFirst bid ts (setTodosFirst bid' ts' l) =
      setTodosFirst bid' ts' (setTodosFirst bid ts l) := by
  induction l with
  | nil => rfl
  | cons a rest ih =>
    obtain ⟨aid, atitle, acolor, atodos⟩ := a
    by_cases ha : aid = bid
    · subst ha
      simp [setTodosFirst, hne]
    · by_cases ha' : aid = bid'
      · subst ha'
        have hne' : ¬ aid = bid := fun hc => hne hc.symm
        simp [setTodosFirst, hne', ha]
      · simp [setTodosFirst, ha, ha', ih]

theorem totalTodoCount_cons (a : TodoSection) (l : List TodoSection) :
    totalTodoCount (a :: l) = a.todos.length + totalTodoCount l := by
  simp [totalTodoCount]

theorem totalTodoCount_setTodosFirst (bid : String) (ts : List Todo)
    (l : List TodoSection) (sec : TodoSection)
    (h : l.find? (fun s => s.id = bid) = some sec) :
    totalTodoCount (setTodosFirst bid ts l) + sec.todos.length =
      totalTodoCount l + ts.length := by
  induction l with
  | nil => simp at h
  | cons a rest ih =>
    rw [List.find?_cons] at h
    by_cases ha : a.id = bid
    · simp [ha] at h
      rw [← h]
      simp [setTodosFirst, ha, totalTodoCount_cons]
      omega
    · simp [ha] at h
      simp [setTodosFirst, ha, totalTodoCount_cons]
      have := ih h
      omega

theorem map_sectionFrame_setTodosFirst (bid : String) (ts : List Todo)
    (l : List TodoSection) :
    (setTodosFirst bid ts l).map sectionFrame = l.map sectionFrame := by
  induction l with
  | nil => rfl
  | cons a rest ih =>
    by_cases ha : a.id = bid
    · simp [setTodosFirst, ha, sectionFrame]
    · simp [setTodosFirst, ha, sectionFrame, ih]

theorem priorityOk_setTodosFirst {bid : String} {ts : List Todo}
    {l : List TodoSection} (hl : PriorityOk l)
    (hts : ∀ t ∈ ts, t.priority = bid) : PriorityOk (setTodosFirst bid ts l) := by
  induction l with
  | nil => intro sec hsec; simp [setTodosFirst] at hsec
  | cons a rest ih =>
    have hl' : PriorityOk rest := fun sec hsec t ht =>
      hl sec (List.mem_cons_of_mem a hsec) t ht
    intro sec hsec t ht
    by_cases ha : a.id = bid
    · simp [setTodosFirst, ha] at hsec
      rcases hsec with rfl | hsec
      · simpa [ha] using hts t ht
      · exact hl sec (List.mem_cons_of_mem a hsec) t ht
    · simp [setTodosFirst, ha] at hsec
      rcases hsec with rfl | hsec
      · exact hl sec (List.mem_cons_self sec rest) t ht
      · exact ih hl' sec hsec t ht

theorem find?_id_mem {l : List TodoSection} {bid : String} {sec : TodoSection}
    (h : l.find? (fun s => s.id = bid) = some sec) : sec ∈ l :=
  List.mem_of_find?_eq_some h

theorem find?_id_eq {l : List TodoSection} {bid : String} {sec : TodoSection}
    (h : l.find? (fun s => s.id = bid) = some sec) : sec.id = bid := by
  have := List.find?_some h
  simpa using this

/-!  Case analysis of `onDragEnd`. -/

theorem onDragEnd_no_dest (src : DragLocation) (s : List TodoSection) :
    onDragEnd ⟨src, none⟩ s = some s := rfl

theorem onDragEnd_not_found {src dst : DragLocation} {s : List TodoSection}
    (h : s.find? (fun x => x.id = src.droppableId) = none ∨
         s.find? (fun x => x.id = dst.droppableId) = none) :
    onDragEnd ⟨src, some dst⟩ s = some s := by
  rcases h with h | h
  · simp [onDragEnd, h]
  · cases hfs : s.find? (fun x => x.id = src.droppableId) with
    | none => simp [onDragEnd, hfs]
    | some secS => simp [onDragEnd, hfs, h]

theorem onDragEnd_crash {src dst : DragLocation} {s : List TodoSection}
    {secS secD : TodoSection}
    (hS : s.find? (fun x => x.id = src.droppableId) = some secS)
    (hD : s.find? (fun x => x.id = dst.droppableId) = some secD)
    (hidx : secS.todos.length ≤ src.index) :
    onDragEnd ⟨src, some dst⟩ s = none := by
  have hn : ¬ src.index < secS.todos.length := Nat.not_lt.mpr hidx
  simp [onDragEnd, hS, hD, hn]

theorem onDragEnd_success_same {src dst : DragLocation} {s : List TodoSection}
    {secS : TodoSection}
    (hS : s.find? (fun x => x.id = src.droppableId) = some secS)
    (hsame : src.droppableId = dst.droppableId)
    (h : src.index < secS.todos.length) :
    onDragEnd ⟨src, some dst⟩ s =
      some (setTodosFirst secS.id
        (spliceInsert (secS.todos.eraseIdx src.index) dst.index
          { secS.todos.get ⟨src.index, h⟩ with priority := dst.droppableId }) s) := by
  have hD : s.find? (fun x => x.id = dst.droppableId) = some secS := by
    rw [← hsame]
    exact hS
  simp [onDragEnd, hS, hD, h]

theorem onDragEnd_success_cross {src dst : DragLocation} {s : List TodoSection}
    {secS secD : TodoSection}
    (hS : s.find? (fun x => x.id = src.droppableId) = some secS)
    (hD : s.find? (fun x => x.id = dst.droppableId) = some secD)
    (hne : secS.id ≠ secD.id)
    (h : src.index < secS.todos.length) :
    onDragEnd ⟨src, some dst⟩ s =
      some (setTodosFirst secD.id
        (spliceInsert secD.todos dst.index
          { secS.todos.get ⟨src.index, h⟩ with priority := dst.droppableId })
        (setTodosFirst secS.id (secS.todos.eraseIdx src.index) s)) := by
  simp [onDragEnd, hS, hD, h, hne]

/-!  Preservation of the bucket frames and of the priority invariant. -/

theorem frame_preserving_map {f : TodoSection → TodoSection}
    (hf : ∀ sec, sectionFrame (f sec) = sectionFrame sec)
    (s : List TodoSection) :
    (s.map f).map sectionFrame = s.map sectionFrame := by
  rw [List.map_map]
  exact List.map_congr_left fun a _ => hf a

theorem frames_handleAddTodo (newId text : String) (s : List TodoSection) :
    (handleAddTodo newId text s).map sectionFrame = s.map sectionFrame := by
  apply frame_preserving_map
  intro sec
  by_cases h : sec.id = "DO_FIRST" <;> simp [handleAddTodo, h, sectionFrame]

theorem frames_handleToggleTodo (todoId : String) (s : List TodoSection) :
    (handleToggleTodo todoId s).map sectionFrame = s.map sectionFrame := by
  apply frame_preserving_map
  intro sec
  rfl

theorem frames_handleDeleteTodo (todoId : String) (s : List TodoSection) :
    (handleDeleteTodo todoId s).map sectionFrame = s.map sectionFrame := by
  apply frame_preserving_map
  intro sec
  rfl

theorem frames_handleUpdateTodo (id newText : String) (s : List TodoSection) :
    (handleUpdateTodo id newText s).map sectionFrame = s.map sectionFrame := by
  apply frame_preserving_map
  intro sec
  rfl

theorem frames_onDragEnd {result : DragResult} {s s' : List TodoSection}
    (h : onDragEnd result s = some s') :
    s'.map sectionFrame = s.map sectionFrame := by
  obtain ⟨src, dest⟩ := result
  cases dest with
  | none =>
      rw [onDragEnd_no_dest] at h
      cases h
      rfl
  | some dst =>
      cases hfs : s.find? (fun x => x.id = src.droppableId) with
      | none =>
          rw [onDragEnd_not_found (Or.inl hfs)] at h
          cases h
          rfl
      | some secS =>
          cases hfd : s.find? (fun x => x.id = dst.droppableId) with
          | none =>
              rw [onDragEnd_not_found (Or.inr hfd)] at h
              cases h
              rfl
          | some secD =>
              by_cases hidx : src.index < secS.todos.length
              · by_cases hid : secS.id = secD.id
                · have hsame : src.droppableId = dst.droppableId := by
                    rw [← find?_id_eq hfs, ← find?_id_eq hfd, hid]
                  rw [onDragEnd_success_same hfs hsame hidx] at h
                  cases h
                  rw [map_sectionFrame_setTodosFirst]
                · rw [onDragEnd_success_cross hfs hfd hid hidx] at h
                  cases h
                  rw [map_sectionFrame_setTodosFirst, map_sectionFrame_setTodosFirst]
              · rw [onDragEnd_crash hfs hfd (Nat.le_of_not_lt hidx)] at h
                cases h

theorem priorityOk_handleAddTodo {s : List TodoSection} (hs : PriorityOk s)
    (newId text : String) : PriorityOk (handleAddTodo newId text s) := by
  intro sec hsec t ht
  simp only [handleAddTodo, List.mem_map] at hsec
  obtain ⟨a, ha, rfl⟩ := hsec
  by_cases hid : a.id = "DO_FIRST"
  · rw [if_pos hid] at ht ⊢
    simp only [List.mem_append, List.mem_singleton] at ht
    rcases ht with ht | rfl
    · simpa using hs a ha t ht
    · simp [hid]
  · rw [if_neg hid] at ht ⊢
    simpa using hs a ha t ht

theorem priorityOk_handleToggleTodo {s : List TodoSection} (hs : PriorityOk s)
    (todoId : String) : PriorityOk (handleToggleTodo todoId s) := by
  intro sec hsec t ht
  simp only [handleToggleTodo, List.mem_map] at hsec
  obtain ⟨a, ha, rfl⟩ := hsec
  simp only [List.mem_map] at ht
  obtain ⟨t0, ht0, rfl⟩ := ht
  by_cases h : t0.id = todoId <;> simpa [h] using hs a ha t0 ht0

theorem priorityOk_handleDeleteTodo {s : List TodoSection} (hs : PriorityOk s)
    (todoId : String) : PriorityOk (handleDeleteTodo todoId s) := by
  intro sec hsec t ht
  simp only [handleDeleteTodo, List.mem_map] at hsec
  obtain ⟨a, ha, rfl⟩ := hsec
  simp only [List.mem_filter] at ht
  simpa using hs a ha t ht.1

theorem priorityOk_handleUpdateTodo {s : List TodoSection} (hs : PriorityOk s)
    (id newText : String) : PriorityOk (handleUpdateTodo id newText s) := by
  intro sec hsec t ht
  simp only [handleUpdateTodo, List.mem_map] at hsec
  obtain ⟨a, ha, rfl⟩ := hsec
  simp only [List.mem_map] at ht
  obtain ⟨t0, ht0, rfl⟩ := ht
  by_cases h : t0.id = id <;> simpa [h] using hs a ha t0 ht0

theorem priorityOk_onDragEnd {result : DragResult} {s s' : List TodoSection}
    (hs : PriorityOk s) (h : onDragEnd result s = some s') : PriorityOk s' := by
  obtain ⟨src, dest⟩ := result
  cases dest with
  | none =>
      rw [onDragEnd_no_dest] at h
      cases h
      exact hs
  | some dst =>
      cases hfs : s.find? (fun x => x.id = src.droppableId) with
      | none =>
          rw [onDragEnd_not_found (Or.inl hfs)] at h
          cases h
          exact hs
      | some secS =>
          cases hfd : s.find? (fun x => x.id = dst.droppableId) with
          | none =>
              rw [onDragEnd_not_found (Or.inr hfd)] at h
              cases h
              exact hs
          | some secD =>
              by_cases hidx : src.index < secS.todos.length
              · by_cases hid : secS.id = secD.id
                · have hsame : src.droppableId = dst.droppableId := by
                    rw [← find?_id_eq hfs, ← find?_id_eq hfd, hid]
                  rw [onDragEnd_success_same hfs hsame hidx] at h
                  cases h
                  apply priorityOk_setTodosFirst hs
                  intro t ht
                  rcases mem_spliceInsert ht with rfl | ht
                  · simp [← hsame, find?_id_eq hfs]
                  · exact hs secS (find?_id_mem hfs) t (mem_of_mem_eraseIdx ht)
                · rw [onDragEnd_success_cross hfs hfd hid hidx] at h
                  cases h
                  apply priorityOk_setTodosFirst
                  · apply priorityOk_setTodosFirst hs
                    intro t ht
                    exact hs secS (find?_id_mem hfs) t (mem_of_mem_eraseIdx ht)
                  · intro t ht
                    rcases mem_spliceInsert ht with rfl | ht
                    · simp [find?_id_eq hfd]
                    · exact hs secD (find?_id_mem hfd) t ht
              · rw [onDragEnd_crash hfs hfd (Nat.le_of_not_lt hidx)] at h
                cases h

/-- Every reachable state keeps the four fixed bucket frames and the
priority/bucket-id agreement. -/
theorem reachable_inv {s : List TodoSection} (hr : Reachable s) :
    s.map sectionFrame = fixedFrames ∧ PriorityOk s := by
  induction hr with
  | init =>
      constructor
      · rfl
      · intro sec hsec t ht
        simp [initialSections] at hsec
        rcases hsec with rfl | rfl | rfl | rfl <;> simp at ht
  | add newId text _ ih =>
      exact ⟨by rw [frames_handleAddTodo, ih.1],
        priorityOk_handleAddTodo ih.2 newId text⟩
  | toggle todoId _ ih =>
      exact ⟨by rw [frames_handleToggleTodo, ih.1],
        priorityOk_handleToggleTodo ih.2 todoId⟩
  | delete todoId _ ih =>
      exact ⟨by rw [frames_handleDeleteTodo, ih.1],
        priorityOk_handleDeleteTodo ih.2 todoId⟩
  | update id newText _ ih =>
      exact ⟨by rw [frames_handleUpdateTodo, ih.1],
        priorityOk_handleUpdateTodo ih.2 id newText⟩
  | drag result _ hstep ih =>
      exact ⟨by rw [frames_onDragEnd hstep, ih.1],
        priorityOk_onDragEnd ih.2 hstep⟩

theorem map_eq_self_mem {α : Type} {f : α → α} {l : List α}
    (h : l.map f = l) : ∀ x ∈ l, f x = x := by
  induction l with
  | nil => intro x hx; simp at hx
  | cons a rest ih =>
      simp only [List.map_cons, List.cons.injEq] at h
      intro x hx
      rcases List.mem_cons.mp hx with rfl | hx
      · exact h.1
      · exact ih h.2 x hx

/-- C1: starting from the initial Partition, every sequence of
add / toggleCompletion / delete / updateText / move operations yields a state
with exactly the four fixed buckets (in order DO_FIRST, DO_LATER, DELEGATE,
ELIMINATE), in which every task's `priority` equals the id of its containing
bucket, and every task value lies in at most one bucket (it trivially lies in
at least one, namely any bucket whose todo list contains it). -/
theorem reachable_partition_invariant {s : List TodoSection} (hr : Reachable s) :
    s.map (fun sec => sec.id) = fixedSectionIds ∧
    (∀ sec ∈ s, ∀ t ∈ sec.todos, t.priority = sec.id) ∧
    ∀ t : Todo, ∀ sec1 ∈ s, ∀ sec2 ∈ s,
      t ∈ sec1.todos → t ∈ sec2.todos → sec1 = sec2 := by
  obtain ⟨hframes, hpri⟩ := reachable_inv hr
  have hids : s.map (fun sec => sec.id) = fixedSectionIds := by
    have hcomp : s.map (fun sec => sec.id) =
        (s.map sectionFrame).map (fun fr => fr.1) := by
      rw [List.map_map]
      rfl
    rw [hcomp, hframes]
    rfl
  refine ⟨hids, hpri, ?_⟩
  have hnodup : (s.map (fun sec => sec.id)).Nodup := by
    rw [hids]
    decide
  intro t sec1 h1 sec2 h2 ht1 ht2
  have e1 := hpri sec1 h1 t ht1
  have e2 := hpri sec2 h2 t ht2
  exact List.inj_on_of_nodup_map hnodup h1 h2 (e1.symm.trans e2)

theorem reachable_partition_invariant_witness :
    Reachable (mkPartition [] [⟨"u1", "A", false, "DO_LATER"⟩] [] []) ∧
    (mkPartition [] [⟨"u1", "A", false, "DO_LATER"⟩] [] []).map
      (fun sec => sec.id) = fixedSectionIds := by
  have hr : Reachable (mkPartition [] [⟨"u1", "A", false, "DO_LATER"⟩] [] []) :=
    Reachable.drag ⟨⟨"DO_FIRST", 0⟩, some ⟨"DO_LATER", 0⟩⟩
      (Reachable.add "u1" "A" Reachable.init) rfl
  exact ⟨hr, (reachable_partition_invariant hr).1⟩

/-- C6: any `onDragEnd` call that completes leaves the total number of tasks
over all buckets unchanged (a cancelled drag or a missing section changes
nothing, and a successful move removes exactly one task and inserts exactly
one task). -/
theorem move_preserves_totalTodoCount {result : DragResult}
    {s s' : List TodoSection} (h : onDragEnd result s = some s') :
    totalTodoCount s' = totalTodoCount s := by
  obtain ⟨src, dest⟩ := result
  cases dest with
  | none =>
      rw [onDragEnd_no_dest] at h
      cases h
      rfl
  | some dst =>
      cases hfs : s.find? (fun x => x.id = src.droppableId) with
      | none =>
          rw [onDragEnd_not_found (Or.inl hfs)] at h
          cases h
          rfl
      | some secS =>
          cases hfd : s.find? (fun x => x.id = dst.droppableId) with
          | none =>
              rw [onDragEnd_not_found (Or.inr hfd)] at h
              cases h
              rfl
          | some secD =>
              have hfs' : s.find? (fun x => x.id = secS.id) = some secS := by
                rw [find?_id_eq hfs]
                exact hfs
              have hfd' : s.find? (fun x => x.id = secD.id) = some secD := by
                rw [find?_id_eq hfd]
                exact hfd
              by_cases hidx : src.index < secS.todos.length
              · have hel : (secS.todos.eraseIdx src.index).length =
                    secS.todos.length - 1 := by
                  rw [List.length_eraseIdx]
                  simp [hidx]
                by_cases hid : secS.id = secD.id
                · have hsame : src.droppableId = dst.droppableId := by
                    rw [← find?_id_eq hfs, ← find?_id_eq hfd, hid]
                  rw [onDragEnd_success_same hfs hsame hidx] at h
                  cases h
                  have hcnt := totalTodoCount_setTodosFirst secS.id
                    (spliceInsert (secS.todos.eraseIdx src.index) dst.index
                      { secS.todos.get ⟨src.index, hidx⟩ with
                        priority := dst.droppableId }) s secS hfs'
                  rw [length_spliceInsert, hel] at hcnt
                  omega
                · have hneDS : secD.id ≠ secS.id := fun hc => hid hc.symm
                  rw [onDragEnd_success_cross hfs hfd hid hidx] at h
                  cases h
                  have h1 := totalTodoCount_setTodosFirst secS.id
                    (secS.todos.eraseIdx src.index) s secS hfs'
                  have hmid : (setTodosFirst secS.id
                      (secS.todos.eraseIdx src.index) s).find?
                      (fun x => x.id = secD.id) = some secD := by
                    rw [find?_setTodosFirst_ne secS.id secD.id hneDS]
                    exact hfd'
                  have h2 := totalTodoCount_setTodosFirst secD.id
                    (spliceInsert secD.todos dst.index
                      { secS.todos.get ⟨src.index, hidx⟩ with
                        priority := dst.droppableId })
                    (setTodosFirst secS.id (secS.todos.eraseIdx src.index) s)
                    secD hmid
                  rw [hel] at h1
                  rw [length_spliceInsert] at h2
                  omega
              · rw [onDragEnd_crash hfs hfd (Nat.le_of_not_lt hidx)] at h
                cases h

theorem move_preserves_totalTodoCount_witness :
    totalTodoCount (mkPartition [] [⟨"u1", "A", false, "DO_LATER"⟩] [] []) =
      totalTodoCount (mkPartition [⟨"u1", "A", false, "DO_FIRST"⟩] [] [] []) :=
  @move_preserves_totalTodoCount ⟨⟨"DO_FIRST", 0⟩, some ⟨"DO_LATER", 0⟩⟩
    (mkPartition [⟨"u1", "A", false, "DO_FIRST"⟩] [] [] [])
    (mkPartition [] [⟨"u1", "A", false, "DO_LATER"⟩] [] []) rfl

theorem todo_set_priority_self {t : Todo} {b : String} (h : t.priority = b) :
    ({ t with priority := b } : Todo) = t := by
  cases t
  simp_all

theorem onDragEnd_same_spot {s : List TodoSection} {b : String} {i : Nat}
    {secB : TodoSection}
    (hfind : s.find? (fun x => x.id = b) = some secB)
    (hpri : PriorityOk s)
    (hi : i < secB.todos.length) :
    onDragEnd ⟨⟨b, i⟩, some ⟨b, i⟩⟩ s = some s := by
  rw [onDragEnd_success_same hfind rfl hi]
  have hpr : (secB.todos.get ⟨i, hi⟩).priority = b :=
    (hpri secB (find?_id_mem hfind) _ (secB.todos.get_mem i hi)).trans
      (find?_id_eq hfind)
  rw [show ({ secB.todos.get ⟨i, hi⟩ with
        priority := (DragLocation.mk b i).droppableId } : Todo) =
      secB.todos.get ⟨i, hi⟩ from todo_set_priority_self hpr]
  rw [spliceInsert_eraseIdx_get secB.todos i hi]
  have hfind' : s.find? (fun x => x.id = secB.id) = some secB := by
    rw [find?_id_eq hfind]
    exact hfind
  rw [setTodosFirst_self secB.id s secB hfind']

/-- C7: dragging a task onto its own position (`move(b, i, b, i)` with a
valid index `i` of an existing bucket `b`, on a Partition satisfying the
priority invariant) returns a Partition value-equal to the input. -/
theorem move_same_position_noop {s : List TodoSection} {b : String} {i : Nat}
    {secB : TodoSection}
    (hfind : s.find? (fun x => x.id = b) = some secB)
    (hpri : PriorityOk s)
    (hi : i < secB.todos.length) :
    onDragEnd ⟨⟨b, i⟩, some ⟨b, i⟩⟩ s = some s :=
  onDragEnd_same_spot hfind hpri hi

theorem move_same_position_noop_witness :
    onDragEnd ⟨⟨"DO_FIRST", 0⟩, some ⟨"DO_FIRST", 0⟩⟩
        (mkPartition [⟨"u1", "A", false, "DO_FIRST"⟩] [] [] []) =
      some (mkPartition [⟨"u1", "A", false, "DO_FIRST"⟩] [] [] []) := by
  have hpri : PriorityOk
      (mkPartition [⟨"u1", "A", false, "DO_FIRST"⟩] [] [] []) := by
    intro sec hsec t ht
    simp [mkPartition] at hsec
    rcases hsec with rfl | rfl | rfl | rfl <;> simp_all
  exact @move_same_position_noop _ "DO_FIRST" 0
    ⟨"DO_FIRST", "DO FIRST", "bg-green-100", [⟨"u1", "A", false, "DO_FIRST"⟩]⟩
    rfl hpri (by decide)

/-- C8: with no other mutation in between, moving the head task of bucket A
to the head of bucket B and then moving it back restores the original
Partition exactly (order and membership included), for any Partition
satisfying the priority invariant whose bucket A is non-empty. -/
theorem move_roundtrip {s : List TodoSection} {A B : String}
    {secA secB : TodoSection}
    (hA : s.find? (fun x => x.id = A) = some secA)
    (hB : s.find? (fun x => x.id = B) = some secB)
    (hpri : PriorityOk s)
    (hne : secA.todos ≠ []) :
    ∃ s1, onDragEnd ⟨⟨A, 0⟩, some ⟨B, 0⟩⟩ s = some s1 ∧
      onDragEnd ⟨⟨B, 0⟩, some ⟨A, 0⟩⟩ s1 = some s := by
  have hidA : secA.id = A := find?_id_eq hA
  have hidB : secB.id = B := find?_id_eq hB
  subst hidA
  subst hidB
  obtain ⟨t, restA, hcons⟩ := List.exists_cons_of_ne_nil hne
  have h0 : 0 < secA.todos.length := by
    rw [hcons]
    simp
  have htp : t.priority = secA.id :=
    hpri secA (find?_id_mem hA) t (by rw [hcons]; exact List.mem_cons_self t restA)
  by_cases hAB : secA.id = secB.id
  · have hA' := hA
    rw [hAB] at hA'
    have hAeqB : secA = secB := Option.some.inj (hA'.symm.trans hB)
    subst hAeqB
    exact ⟨s, onDragEnd_same_spot hA hpri h0, onDragEnd_same_spot hA hpri h0⟩
  · have hneBA : secB.id ≠ secA.id := fun hc => hAB hc.symm
    refine ⟨setTodosFirst secB.id ({ t with priority := secB.id } :: secB.todos)
      (setTodosFirst secA.id restA s), ?_, ?_⟩
    · rw [onDragEnd_success_cross hA hB hAB h0]
      have hget : secA.todos.get ⟨0, h0⟩ = t := by simp [hcons]
      rw [hget]
      have herase : secA.todos.eraseIdx 0 = restA := by
        rw [hcons]
        rfl
      rw [herase]
      rfl
    · have hfindInner : (setTodosFirst secA.id restA s).find?
          (fun x => x.id = secB.id) = some secB := by
        rw [find?_setTodosFirst_ne secA.id secB.id hneBA]
        exact hB
      have hS1 := find?_setTodosFirst_self secB.id
        ({ t with priority := secB.id } :: secB.todos) _ secB hfindInner
      have hD1 : (setTodosFirst secB.id
          ({ t with priority := secB.id } :: secB.todos)
          (setTodosFirst secA.id restA s)).find?
          (fun x => x.id = secA.id) = some { secA with todos := restA } := by
        rw [find?_setTodosFirst_ne secB.id secA.id hAB]
        exact find?_setTodosFirst_self secA.id restA s secA hA
      have hidx2 : 0 < ({ secB with
          todos := { t with priority := secB.id } :: secB.todos } :
          TodoSection).todos.length := by
        simp
      have hne2 : ({ secB with
          todos := { t with priority := secB.id } :: secB.todos } :
          TodoSection).id ≠ ({ secA with todos := restA } : TodoSection).id :=
        hneBA
      rw [onDragEnd_success_cross hS1 hD1 hne2 hidx2]
      show some (setTodosFirst secA.id ({ t with priority := secA.id } :: restA)
        (setTodosFirst secB.id secB.todos
          (setTodosFirst secB.id ({ t with priority := secB.id } :: secB.todos)
            (setTodosFirst secA.id restA s)))) = some s
      rw [todo_set_priority_self htp, ← hcons, setTodosFirst_setTodosFirst,
        setTodosFirst_comm secB.id secA.id hneBA,
        setTodosFirst_self secB.id s secB hB, setTodosFirst_setTodosFirst,
        setTodosFirst_self secA.id s secA hA]

theorem move_roundtrip_witness :
    ∃ s1, onDragEnd ⟨⟨"DO_FIRST", 0⟩, some ⟨"DO_LATER", 0⟩⟩
        (mkPartition [⟨"a", "A", false, "DO_FIRST"⟩]
          [⟨"b", "B", false, "DO_LATER"⟩] [] []) = some s1 ∧
      onDragEnd ⟨⟨"DO_LATER", 0⟩, some ⟨"DO_FIRST", 0⟩⟩ s1 =
        some (mkPartition [⟨"a", "A", false, "DO_FIRST"⟩]
          [⟨"b", "B", false, "DO_LATER"⟩] [] []) := by
  have hpri : PriorityOk (mkPartition [⟨"a", "A", false, "DO_FIRST"⟩]
      [⟨"b", "B", false, "DO_LATER"⟩] [] []) := by
    intro sec hsec t ht
    simp [mkPartition] at hsec
    rcases hsec with rfl | rfl | rfl | rfl <;> simp_all
  exact @move_roundtrip _ "DO_FIRST" "DO_LATER"
    ⟨"DO_FIRST", "DO FIRST", "bg-green-100", [⟨"a", "A", false, "DO_FIRST"⟩]⟩
    ⟨"DO_LATER", "DO LATER", "bg-blue-100", [⟨"b", "B", false, "DO_LATER"⟩]⟩
    rfl rfl hpri (by decide)

/-- C2 counterexample: with destination index 5 strictly greater than the
post-removal destination length 0, the claim demands an `InvalidIndexError`
that leaves the Partition unchanged, but `onDragEnd` succeeds — the splice
clamps the index and appends — and the Partition changes. -/
theorem move_error_contract_counterexample :
    onDragEnd ⟨⟨"DO_FIRST", 0⟩, some ⟨"DO_LATER", 5⟩⟩
        (mkPartition [⟨"u1", "A", false, "DO_FIRST"⟩] [] [] []) =
      some (mkPartition [] [⟨"u1", "A", false, "DO_LATER"⟩] [] []) ∧
    mkPartition [] [⟨"u1", "A", false, "DO_LATER"⟩] [] [] ≠
      mkPartition [⟨"u1", "A", false, "DO_FIRST"⟩] [] [] [] :=
  ⟨rfl, by decide⟩

/-- C2 corrected: `onDragEnd` raises no errors at all.  When either bucket id
is unknown it silently returns the Partition unchanged; when `sourceIndex` is
out of bounds it aborts with a thrown `TypeError` (modelled as `none`),
leaving the Partition unchanged; when `destIndex` is at or beyond the
post-removal destination length (including `destIndex == len`) the insert is
clamped and the moved task is appended at the end, successfully. -/
theorem move_error_contract_amended (sections : List TodoSection)
    (src dst : DragLocation) :
    ((sections.find? (fun x => x.id = src.droppableId) = none ∨
      sections.find? (fun x => x.id = dst.droppableId) = none) →
        onDragEnd ⟨src, some dst⟩ sections = some sections) ∧
    (∀ secS secD : TodoSection,
      sections.find? (fun x => x.id = src.droppableId) = some secS →
      sections.find? (fun x => x.id = dst.droppableId) = some secD →
      secS.todos.length ≤ src.index →
        onDragEnd ⟨src, some dst⟩ sections = none) ∧
    (∀ secS : TodoSection,
      sections.find? (fun x => x.id = src.droppableId) = some secS →
      src.droppableId = dst.droppableId →
      ∀ h : src.index < secS.todos.length,
        (secS.todos.eraseIdx src.index).length ≤ dst.index →
          onDragEnd ⟨src, some dst⟩ sections =
            some (setTodosFirst secS.id
              (secS.todos.eraseIdx src.index ++
                [{ secS.todos.get ⟨src.index, h⟩ with
                  priority := dst.droppableId }]) sections)) ∧
    (∀ secS secD : TodoSection,
      sections.find? (fun x => x.id = src.droppableId) = some secS →
      sections.find? (fun x => x.id = dst.droppableId) = some secD →
      secS.id ≠ secD.id →
      ∀ h : src.index < secS.todos.length,
        secD.todos.length ≤ dst.index →
          onDragEnd ⟨src, some dst⟩ sections =
            some (setTodosFirst secD.id
              (secD.todos ++
                [{ secS.todos.get ⟨src.index, h⟩ with
                  priority := dst.droppableId }])
              (setTodosFirst secS.id (secS.todos.eraseIdx src.index)
                sections))) := by
  refine ⟨fun h => onDragEnd_not_found h, ?_, ?_, ?_⟩
  · intro secS secD hS hD hle
    exact onDragEnd_crash hS hD hle
  · intro secS hS hsame h hle
    rw [onDragEnd_success_same hS hsame h, spliceInsert_of_le _ _ _ hle]
  · intro secS secD hS hD hne h hle
    rw [onDragEnd_success_cross hS hD hne h, spliceInsert_of_le _ _ _ hle]

theorem move_error_contract_amended_witness :
    onDragEnd ⟨⟨"BOGUS", 0⟩, some ⟨"DO_FIRST", 0⟩⟩ initialSections =
      some initialSections ∧
    onDragEnd ⟨⟨"DO_FIRST", 5⟩, some ⟨"DO_LATER", 0⟩⟩
      (mkPartition [⟨"u1", "A", false, "DO_FIRST"⟩] [] [] []) = none ∧
    onDragEnd ⟨⟨"DO_FIRST", 0⟩, some ⟨"DO_FIRST", 9⟩⟩
      (mkPartition [⟨"u1", "A", false, "DO_FIRST"⟩,
        ⟨"u2", "B", false, "DO_FIRST"⟩] [] [] []) =
      some (mkPartition [⟨"u2", "B", false, "DO_FIRST"⟩,
        ⟨"u1", "A", false, "DO_FIRST"⟩] [] [] []) ∧
    onDragEnd ⟨⟨"DO_FIRST", 0⟩, some ⟨"DO_LATER", 1⟩⟩
      (mkPartition [⟨"u1", "A", false, "DO_FIRST"⟩]
        [⟨"u2", "B", false, "DO_LATER"⟩] [] []) =
      some (mkPartition [] [⟨"u2", "B", false, "DO_LATER"⟩,
        ⟨"u1", "A", false, "DO_LATER"⟩] [] []) := by
  refine ⟨(move_error_contract_amended initialSections
      ⟨"BOGUS", 0⟩ ⟨"DO_FIRST", 0⟩).1 (Or.inl rfl),
    (move_error_contract_amended _ ⟨"DO_FIRST", 5⟩ ⟨"DO_LATER", 0⟩).2.1
      ⟨"DO_FIRST", "DO FIRST", "bg-green-100", [⟨"u1", "A", false, "DO_FIRST"⟩]⟩
      ⟨"DO_LATER", "DO LATER", "bg-blue-100", []⟩ rfl rfl (by decide),
    ((move_error_contract_amended
      (mkPartition [⟨"u1", "A", false, "DO_FIRST"⟩,
        ⟨"u2", "B", false, "DO_FIRST"⟩] [] [] [])
      ⟨"DO_FIRST", 0⟩ ⟨"DO_FIRST", 9⟩).2.2.1
      ⟨"DO_FIRST", "DO FIRST", "bg-green-100",
        [⟨"u1", "A", false, "DO_FIRST"⟩, ⟨"u2", "B", false, "DO_FIRST"⟩]⟩
      rfl rfl (by decide) (by decide)).trans (by rfl),
    ((move_error_contract_amended
      (mkPartition [⟨"u1", "A", false, "DO_FIRST"⟩]
        [⟨"u2", "B", false, "DO_LATER"⟩] [] [])
      ⟨"DO_FIRST", 0⟩ ⟨"DO_LATER", 1⟩).2.2.2
      ⟨"DO_FIRST", "DO FIRST", "bg-green-100",
        [⟨"u1", "A", false, "DO_FIRST"⟩]⟩
      ⟨"DO_LATER", "DO LATER", "bg-blue-100",
        [⟨"u2", "B", false, "DO_LATER"⟩]⟩
      rfl rfl (by decide) (by decide) (by decide)).trans (by rfl)⟩

/-- C3 counterexample: `handleAddTodo` invoked directly with empty text does
not fail and does not leave the Partition unchanged — it appends a task whose
text is empty. -/
theorem add_empty_text_counterexample :
    jsTrim "" = "" ∧
    handleAddTodo "u1" "" initialSections ≠ initialSections :=
  ⟨rfl, by decide⟩

theorem map_eq_self_of_mem {α : Type} {f : α → α} {l : List α}
    (h : ∀ x ∈ l, f x = x) : l.map f = l := by
  induction l with
  | nil => rfl
  | cons a rest ih =>
      simp [h a (List.mem_cons_self a rest),
        ih fun x hx => h x (List.mem_cons_of_mem a hx)]

/-- C3 corrected: the store itself performs no validation — `handleAddTodo`
changes the Partition even for empty-trimmed text (as long as a DO_FIRST
bucket exists).  The empty-text rejection lives solely in the add modal's
submit handler, which silently leaves the Partition unchanged, producing no
error value. -/
theorem add_empty_text_amended (newId text : String) (s : List TodoSection)
    (htrim : jsTrim text = "") :
    addTodoModalSubmit newId text s = s ∧
    ∀ secD ∈ s, secD.id = "DO_FIRST" → handleAddTodo newId text s ≠ s := by
  refine ⟨by simp [addTodoModalSubmit, htrim], ?_⟩
  intro secD hmem hid heq
  simp only [handleAddTodo] at heq
  have hfix := map_eq_self_mem heq secD hmem
  rw [if_pos hid] at hfix
  have hlen := congrArg (fun sec => sec.todos.length) hfix
  simp at hlen

theorem add_empty_text_amended_witness :
    jsTrim "  " = "" ∧
    addTodoModalSubmit "u1" "  " initialSections = initialSections ∧
    handleAddTodo "u1" "  " initialSections ≠ initialSections :=
  ⟨by decide, (add_empty_text_amended "u1" "  " initialSections (by decide)).1,
    (add_empty_text_amended "u1" "  " initialSections (by decide)).2
      ⟨"DO_FIRST", "DO FIRST", "bg-green-100", []⟩ (by decide) rfl⟩

/-- C4 counterexample: `handleUpdateTodo` with empty new text does not fail
with a `ValidationError` — it silently replaces the task's text by the empty
string, changing the Partition. -/
theorem updateText_empty_counterexample :
    jsTrim "" = "" ∧
    handleUpdateTodo "u1" ""
        (mkPartition [⟨"u1", "A", false, "DO_FIRST"⟩] [] [] []) =
      mkPartition [⟨"u1", "", false, "DO_FIRST"⟩] [] [] [] ∧
    mkPartition [⟨"u1", "", false, "DO_FIRST"⟩] [] [] [] ≠
      mkPartition [⟨"u1", "A", false, "DO_FIRST"⟩] [] [] [] :=
  ⟨rfl, rfl, by decide⟩

/-- C4 corrected: `handleUpdateTodo` performs no validation (the empty-text
rejection lives solely in the edit modal's submit handler, a silent no-op
without any error value).  The replacement itself is as the claim says:
it changes only the `text` of todos with the matching id, preserving every
bucket's identity and order, every todo's position, id, completion flag and
priority; and it is a no-op when no task has the given id. -/
theorem updateText_amended (id newText : String) (s : List TodoSection) :
    (jsTrim newText = "" → editTodoModalSubmit (some id) newText s = s) ∧
    (handleUpdateTodo id newText s).length = s.length ∧
    (∀ (i : Nat) (hi : i < s.length)
      (hi' : i < (handleUpdateTodo id newText s).length),
      ((handleUpdateTodo id newText s).get ⟨i, hi'⟩).id = (s.get ⟨i, hi⟩).id ∧
      ((handleUpdateTodo id newText s).get ⟨i, hi'⟩).todos.length =
        (s.get ⟨i, hi⟩).todos.length ∧
      ∀ (j : Nat) (hj : j < (s.get ⟨i, hi⟩).todos.length)
        (hj' : j < ((handleUpdateTodo id newText s).get ⟨i, hi'⟩).todos.length),
        (((handleUpdateTodo id newText s).get ⟨i, hi'⟩).todos.get ⟨j, hj'⟩).id =
          ((s.get ⟨i, hi⟩).todos.get ⟨j, hj⟩).id ∧
        (((handleUpdateTodo id newText s).get ⟨i, hi'⟩).todos.get
            ⟨j, hj'⟩).completed =
          ((s.get ⟨i, hi⟩).todos.get ⟨j, hj⟩).completed ∧
        (((handleUpdateTodo id newText s).get ⟨i, hi'⟩).todos.get
            ⟨j, hj'⟩).priority =
          ((s.get ⟨i, hi⟩).todos.get ⟨j, hj⟩).priority ∧
        (((handleUpdateTodo id newText s).get ⟨i, hi'⟩).todos.get
            ⟨j, hj'⟩).text =
          (if ((s.get ⟨i, hi⟩).todos.get ⟨j, hj⟩).id = id then newText
           else ((s.get ⟨i, hi⟩).todos.get ⟨j, hj⟩).text)) ∧
    ((∀ sec ∈ s, ∀ t ∈ sec.todos, t.id ≠ id) →
      handleUpdateTodo id newText s = s) := by
  refine ⟨fun h => by simp [editTodoModalSubmit, h],
    by simp [handleUpdateTodo], ?_, ?_⟩
  · intro i hi hi'
    refine ⟨?_, ?_, ?_⟩
    · simp [handleUpdateTodo]
    · simp [handleUpdateTodo]
    · intro j hj hj'
      simp only [handleUpdateTodo, List.get_eq_getElem, List.getElem_map]
      by_cases hid : (s[i].todos[j]).id = id
      · simp [hid]
      · simp [hid]
  · intro hnone
    show s.map _ = s
    apply map_eq_self_of_mem
    intro sec hsec
    have h2 : (sec.todos.map fun todo =>
        if todo.id = id then { todo with text := newText } else todo) =
          sec.todos :=
      map_eq_self_of_mem fun t ht => if_neg (hnone sec hsec t ht)
    simp [h2]

theorem updateText_amended_witness :
    editTodoModalSubmit (some "u1") " "
        (mkPartition [⟨"u1", "A", false, "DO_FIRST"⟩] [] [] []) =
      mkPartition [⟨"u1", "A", false, "DO_FIRST"⟩] [] [] [] ∧
    (((handleUpdateTodo "u1" "B"
        (mkPartition [⟨"u1", "A", false, "DO_FIRST"⟩] [] [] [])).get
          ⟨0, by decide⟩).todos.get ⟨0, by decide⟩).text = "B" ∧
    handleUpdateTodo "zz" "B"
        (mkPartition [⟨"u1", "A", false, "DO_FIRST"⟩] [] [] []) =
      mkPartition [⟨"u1", "A", false, "DO_FIRST"⟩] [] [] [] := by
  refine ⟨(updateText_amended "u1" " "
      (mkPartition [⟨"u1", "A", false, "DO_FIRST"⟩] [] [] [])).1 rfl, ?_,
    (updateText_amended "zz" "B"
      (mkPartition [⟨"u1", "A", false, "DO_FIRST"⟩] [] [] [])).2.2.2
      (by decide)⟩
  have h := (((updateText_amended "u1" "B"
    (mkPartition [⟨"u1", "A", false, "DO_FIRST"⟩] [] [] [])).2.2.1
    0 (by decide) (by decide)).2.2 0 (by decide) (by decide)).2.2.2
  exact h.trans (by rfl)

/-- C9: `handleAddTodo` (with any fresh id and non-empty-trimmed text)
appends a task with `completed = false` and `priority = DO_FIRST` at the end
of every DO_FIRST bucket and leaves every other bucket untouched; on the
empty Partition, adding "buy milk" yields DO_FIRST holding exactly that one
task and the other three buckets empty. -/
theorem add_success_spec (newId text : String) (s : List TodoSection)
    (htrim : jsTrim text ≠ "") :
    (handleAddTodo newId text s).length = s.length ∧
    (∀ (i : Nat) (hi : i < s.length)
      (hi' : i < (handleAddTodo newId text s).length),
      ((s.get ⟨i, hi⟩).id = "DO_FIRST" →
        (handleAddTodo newId text s).get ⟨i, hi'⟩ =
          { s.get ⟨i, hi⟩ with
            todos := (s.get ⟨i, hi⟩).todos ++
              [⟨newId, text, false, "DO_FIRST"⟩] }) ∧
      ((s.get ⟨i, hi⟩).id ≠ "DO_FIRST" →
        (handleAddTodo newId text s).get ⟨i, hi'⟩ = s.get ⟨i, hi⟩)) ∧
    handleAddTodo newId "buy milk" initialSections =
      mkPartition [⟨newId, "buy milk", false, "DO_FIRST"⟩] [] [] [] := by
  refine ⟨by simp [handleAddTodo], ?_, rfl⟩
  intro i hi hi'
  simp only [handleAddTodo, List.get_eq_getElem, List.getElem_map]
  constructor
  · intro h
    rw [if_pos h]
  · intro h
    rw [if_neg h]

theorem add_success_spec_witness :
    jsTrim "buy milk" ≠ "" ∧
    handleAddTodo "u1" "buy milk" initialSections =
      mkPartition [⟨"u1", "buy milk", false, "DO_FIRST"⟩] [] [] [] :=
  ⟨by decide,
    (add_success_spec "u1" "buy milk" initialSections (by decide)).2.2⟩

/-- C10: `handleAddTodo` stores the provided text verbatim, with no
trimming: the task appended to a DO_FIRST bucket carries exactly the
argument string, whitespace included. -/
theorem add_stores_text_verbatim (newId text : String) (s : List TodoSection)
    (i : Nat) (hi : i < s.length)
    (hi' : i < (handleAddTodo newId text s).length)
    (hid : (s.get ⟨i, hi⟩).id = "DO_FIRST") :
    ((handleAddTodo newId text s).get ⟨i, hi'⟩).todos.getLast? =
      some ⟨newId, text, false, "DO_FIRST"⟩ := by
  simp only [List.get_eq_getElem] at hid
  simp only [handleAddTodo, List.get_eq_getElem, List.getElem_map]
  rw [if_pos hid]
  exact List.getLast?_concat _

theorem add_stores_text_verbatim_witness :
    ((handleAddTodo "u1" "  pad  " initialSections).get
        ⟨0, by decide⟩).todos.getLast? =
      some ⟨"u1", "  pad  ", false, "DO_FIRST"⟩ ∧
    ("  pad  " : String) ≠ jsTrim "  pad  " :=
  ⟨add_stores_text_verbatim "u1" "  pad  " initialSections 0
      (by decide) (by decide) rfl,
    by decide⟩

/-!  Allocation-tag lemmas for the referential-identity claim. -/

theorem length_taggedMapNew (f : TodoSection → TodoSection) (next : Nat)
    (l : List TaggedSection) :
    (taggedMapNew f next l).2.length = l.length := by
  induction l generalizing next with
  | nil => rfl
  | cons a rest ih => simp [taggedMapNew, ih]

theorem taggedMapNew_get (f : TodoSection → TodoSection) (next : Nat)
    (l : List TaggedSection) (i : Nat) (hi : i < l.length)
    (hi' : i < (taggedMapNew f next l).2.length) :
    ((taggedMapNew f next l).2.get ⟨i, hi'⟩).tag = next + i ∧
    ((taggedMapNew f next l).2.get ⟨i, hi'⟩).sec = f (l.get ⟨i, hi⟩).sec := by
  induction l generalizing next i with
  | nil => simp at hi
  | cons a rest ih =>
      cases i with
      | zero => exact ⟨rfl, rfl⟩
      | succ n =>
          have hi2 : n < rest.length := by simpa using hi
          have hi2' : n < (taggedMapNew f (next + 1) rest).2.length := by
            rw [length_taggedMapNew]
            exact hi2
          have h := ih (next + 1) n hi2 hi2'
          constructor
          · show ((taggedMapNew f (next + 1) rest).2.get ⟨n, hi2'⟩).tag =
              next + (n + 1)
            rw [h.1]
            omega
          · show ((taggedMapNew f (next + 1) rest).2.get ⟨n, hi2'⟩).sec =
              f (rest.get ⟨n, hi2⟩).sec
            exact h.2

theorem taggedMapCond_cons_pos (p : TodoSection → Bool)
    (f : TodoSection → TodoSection) (next : Nat) (a : TaggedSection)
    (rest : List TaggedSection) (hp : p a.sec = true) :
    (taggedMapCond p f next (a :: rest)).2 =
      ⟨next, f a.sec⟩ :: (taggedMapCond p f (next + 1) rest).2 := by
  simp [taggedMapCond, hp]

theorem taggedMapCond_cons_neg (p : TodoSection → Bool)
    (f : TodoSection → TodoSection) (next : Nat) (a : TaggedSection)
    (rest : List TaggedSection) (hp : p a.sec = false) :
    (taggedMapCond p f next (a :: rest)).2 =
      a :: (taggedMapCond p f next rest).2 := by
  simp [taggedMapCond, hp]

theorem length_taggedMapCond (p : TodoSection → Bool)
    (f : TodoSection → TodoSection) (next : Nat) (l : List TaggedSection) :
    (taggedMapCond p f next l).2.length = l.length := by
  induction l generalizing next with
  | nil => rfl
  | cons a rest ih =>
      cases hp : p a.sec with
      | true => rw [taggedMapCond_cons_pos p f next a rest hp]; simp [ih]
      | false => rw [taggedMapCond_cons_neg p f next a rest hp]; simp [ih]

theorem taggedMapCond_get (p : TodoSection → Bool)
    (f : TodoSection → TodoSection) (next : Nat) (l : List TaggedSection)
    (i : Nat) (hi : i < l.length)
    (hi' : i < (taggedMapCond p f next l).2.length) :
    (p (l.get ⟨i, hi⟩).sec = false →
      (taggedMapCond p f next l).2.get ⟨i, hi'⟩ = l.get ⟨i, hi⟩) ∧
    (p (l.get ⟨i, hi⟩).sec = true →
      next ≤ ((taggedMapCond p f next l).2.get ⟨i, hi'⟩).tag ∧
      ((taggedMapCond p f next l).2.get ⟨i, hi'⟩).sec =
        f (l.get ⟨i, hi⟩).sec) := by
  induction l generalizing next i with
  | nil => simp at hi
  | cons a rest ih =>
      cases hp : p a.sec with
      | true =>
          cases i with
          | zero =>
              constructor
              · intro hfalse
                rw [show ((a :: rest).get ⟨0, hi⟩) = a from rfl, hp] at hfalse
                cases hfalse
              · intro _
                have hg : (taggedMapCond p f next (a :: rest)).2.get ⟨0, hi'⟩ =
                    ⟨next, f a.sec⟩ := by
                  have := taggedMapCond_cons_pos p f next a rest hp
                  simp [List.get_eq_getElem, this]
                rw [hg]
                exact ⟨Nat.le_refl next, rfl⟩
          | succ n =>
              have hi2 : n < rest.length := by simpa using hi
              have hi2' : n < (taggedMapCond p f (next + 1) rest).2.length := by
                rw [length_taggedMapCond]
                exact hi2
              have h := ih (next + 1) n hi2 hi2'
              have hg : (taggedMapCond p f next (a :: rest)).2.get
                  ⟨n + 1, hi'⟩ =
                  (taggedMapCond p f (next + 1) rest).2.get ⟨n, hi2'⟩ := by
                have := taggedMapCond_cons_pos p f next a rest hp
                simp [List.get_eq_getElem, this]
              rw [hg, show ((a :: rest).get ⟨n + 1, hi⟩) =
                rest.get ⟨n, hi2⟩ from rfl]
              refine ⟨h.1, fun ht => ⟨?_, (h.2 ht).2⟩⟩
              have := (h.2 ht).1
              omega
      | false =>
          cases i with
          | zero =>
              have hg : (taggedMapCond p f next (a :: rest)).2.get ⟨0, hi'⟩ =
                  a := by
                have := taggedMapCond_cons_neg p f next a rest hp
                simp [List.get_eq_getElem, this]
              constructor
              · intro _
                rw [hg]
                rfl
              · intro htrue
                rw [show ((a :: rest).get ⟨0, hi⟩) = a from rfl, hp] at htrue
                cases htrue
          | succ n =>
              have hi2 : n < rest.length := by simpa using hi
              have hi2' : n < (taggedMapCond p f next rest).2.length := by
                rw [length_taggedMapCond]
                exact hi2
              have h := ih next n hi2 hi2'
              have hg : (taggedMapCond p f next (a :: rest)).2.get
                  ⟨n + 1, hi'⟩ =
                  (taggedMapCond p f next rest).2.get ⟨n, hi2'⟩ := by
                have := taggedMapCond_cons_neg p f next a rest hp
                simp [List.get_eq_getElem, this]
              rw [hg, show ((a :: rest).get ⟨n + 1, hi⟩) =
                rest.get ⟨n, hi2⟩ from rfl]
              exact h

theorem map_tag_setTodosFirstTagged (bid : String) (ts : List Todo)
    (l : List TaggedSection) :
    (setTodosFirstTagged bid ts l).map (fun x => x.tag) =
      l.map fun x => x.tag := by
  induction l with
  | nil => rfl
  | cons a rest ih =>
      by_cases ha : a.sec.id = bid <;> simp [setTodosFirstTagged, ha, ih]

theorem taggedOnDragEnd_tags {result : DragResult}
    {l l' : List TaggedSection} (h : taggedOnDragEnd result l = some l') :
    l'.map (fun x => x.tag) = l.map fun x => x.tag := by
  obtain ⟨src, dest⟩ := result
  cases dest with
  | none =>
      simp only [taggedOnDragEnd, Option.some.injEq] at h
      rw [← h]
  | some dst =>
      cases hfs : l.find? (fun ts => ts.sec.id = src.droppableId) with
      | none =>
          simp only [taggedOnDragEnd, hfs, Option.some.injEq] at h
          rw [← h]
      | some secS =>
          cases hfd : l.find? (fun ts => ts.sec.id = dst.droppableId) with
          | none =>
              simp only [taggedOnDragEnd, hfs, hfd, Option.some.injEq] at h
              rw [← h]
          | some secD =>
              simp only [taggedOnDragEnd, hfs, hfd] at h
              by_cases hidx : src.index < secS.sec.todos.length
              · rw [dif_pos hidx] at h
                by_cases hid : secS.sec.id = secD.sec.id
                · rw [if_pos hid, Option.some.injEq] at h
                  rw [← h, map_tag_setTodosFirstTagged]
                · rw [if_neg hid, Option.some.injEq] at h
                  rw [← h, map_tag_setTodosFirstTagged,
                    map_tag_setTodosFirstTagged]
              · rw [dif_neg hidx] at h
                cases h

/-- C5 counterexample: `onDragEnd` mutates the affected bucket objects in
place.  In the tagged model, after dragging the only DO_FIRST task into
DO_LATER, the DO_LATER bucket's todo list has changed, yet the bucket object
still carries its old allocation tag (1), which belongs to the prior
snapshot — no new bucket object was produced for a changed bucket. -/
theorem structural_sharing_counterexample :
    taggedOnDragEnd ⟨⟨"DO_FIRST", 0⟩, some ⟨"DO_LATER", 0⟩⟩
        [⟨0, ⟨"DO_FIRST", "DO FIRST", "bg-green-100",
            [⟨"u1", "A", false, "DO_FIRST"⟩]⟩⟩,
         ⟨1, ⟨"DO_LATER", "DO LATER", "bg-blue-100", []⟩⟩,
         ⟨2, ⟨"DELEGATE", "DELEGATE", "bg-yellow-100", []⟩⟩,
         ⟨3, ⟨"ELIMINATE", "ELIMINATE", "bg-red-100", []⟩⟩] =
      some
        [⟨0, ⟨"DO_FIRST", "DO FIRST", "bg-green-100", []⟩⟩,
         ⟨1, ⟨"DO_LATER", "DO LATER", "bg-blue-100",
            [⟨"u1", "A", false, "DO_LATER"⟩]⟩⟩,
         ⟨2, ⟨"DELEGATE", "DELEGATE", "bg-yellow-100", []⟩⟩,
         ⟨3, ⟨"ELIMINATE", "ELIMINATE", "bg-red-100", []⟩⟩] ∧
    (([⟨"u1", "A", false, "DO_LATER"⟩] : List Todo) ≠ ([] : List Todo)) ∧
    (1 : Nat) ∈ ([⟨0, ⟨"DO_FIRST", "DO FIRST", "bg-green-100",
            [⟨"u1", "A", false, "DO_FIRST"⟩]⟩⟩,
         ⟨1, ⟨"DO_LATER", "DO LATER", "bg-blue-100", []⟩⟩,
         ⟨2, ⟨"DELEGATE", "DELEGATE", "bg-yellow-100", []⟩⟩,
         ⟨3, ⟨"ELIMINATE", "ELIMINATE", "bg-red-100", []⟩⟩] :
        List TaggedSection).map fun ts => ts.tag :=
  ⟨rfl, by decide, by decide⟩

/-- C5 corrected: the four map-based handlers do satisfy the claim — in the
tagged model, `handleAddTodo` allocates a fresh object for every changed
(DO_FIRST) bucket and shares unchanged buckets, and toggle / delete / update
allocate a fresh object for every bucket.  `onDragEnd` violates the claim:
it reuses every existing bucket object (all allocation tags are preserved),
mutating the changed buckets' todo arrays in place and allocating only a
fresh top-level array. -/
theorem structural_sharing_amended (newId text todoId removeId editId
    newText : String) (next : Nat) (l : List TaggedSection)
    (hfresh : ∀ ts ∈ l, ts.tag < next) :
    (∀ (i : Nat) (hi : i < l.length)
      (hi' : i < (taggedAddTodo newId text next l).2.length),
      ((taggedAddTodo newId text next l).2.get ⟨i, hi'⟩).sec.todos ≠
          (l.get ⟨i, hi⟩).sec.todos →
        ¬ ((taggedAddTodo newId text next l).2.get ⟨i, hi'⟩).tag ∈
            (l.map fun ts => ts.tag)) ∧
    (∀ (i : Nat) (hi : i < l.length)
      (hi' : i < (taggedToggleTodo todoId next l).2.length),
      ¬ ((taggedToggleTodo todoId next l).2.get ⟨i, hi'⟩).tag ∈
          (l.map fun ts => ts.tag)) ∧
    (∀ (i : Nat) (hi : i < l.length)
      (hi' : i < (taggedDeleteTodo removeId next l).2.length),
      ¬ ((taggedDeleteTodo removeId next l).2.get ⟨i, hi'⟩).tag ∈
          (l.map fun ts => ts.tag)) ∧
    (∀ (i : Nat) (hi : i < l.length)
      (hi' : i < (taggedUpdateTodo editId newText next l).2.length),
      ¬ ((taggedUpdateTodo editId newText next l).2.get ⟨i, hi'⟩).tag ∈
          (l.map fun ts => ts.tag)) ∧
    (∀ (result : DragResult) (m : List TaggedSection),
      taggedOnDragEnd result l = some m →
        m.map (fun ts => ts.tag) = l.map fun ts => ts.tag) := by
  have hnotin : ∀ k : Nat, next ≤ k → ¬ k ∈ (l.map fun ts => ts.tag) := by
    intro k hk hmem
    simp only [List.mem_map] at hmem
    obtain ⟨ts, hts, htag⟩ := hmem
    have := hfresh ts hts
    omega
  refine ⟨?_, ?_, ?_, ?_, fun result m h => taggedOnDragEnd_tags h⟩
  · intro i hi hi' hchange
    have h := taggedMapCond_get (fun sec => sec.id = "DO_FIRST")
      (fun sec => { sec with
        todos := sec.todos ++ [⟨newId, text, false, "DO_FIRST"⟩] })
      next l i hi hi'
    cases hp : decide ((l.get ⟨i, hi⟩).sec.id = "DO_FIRST") with
    | false =>
        have heq : ((taggedAddTodo newId text next l).2.get ⟨i, hi'⟩).sec.todos =
            (l.get ⟨i, hi⟩).sec.todos :=
          congrArg (fun ts => ts.sec.todos) (h.1 hp)
        exact absurd heq hchange
    | true =>
        have h1 : next ≤ ((taggedAddTodo newId text next l).2.get
            ⟨i, hi'⟩).tag := (h.2 hp).1
        exact hnotin _ h1
  · intro i hi hi'
    have h1 : ((taggedToggleTodo todoId next l).2.get ⟨i, hi'⟩).tag =
        next + i :=
      (taggedMapNew_get
        (fun sec =>
          { sec with
            todos := sec.todos.map fun todo =>
              if todo.id = todoId then { todo with completed := !todo.completed }
              else todo })
        next l i hi hi').1
    apply hnotin
    omega
  · intro i hi hi'
    have h1 : ((taggedDeleteTodo removeId next l).2.get ⟨i, hi'⟩).tag =
        next + i :=
      (taggedMapNew_get
        (fun sec =>
          { sec with todos := sec.todos.filter fun todo => todo.id ≠ removeId })
        next l i hi hi').1
    apply hnotin
    omega
  · intro i hi hi'
    have h1 : ((taggedUpdateTodo editId newText next l).2.get ⟨i, hi'⟩).tag =
        next + i :=
      (taggedMapNew_get
        (fun sec =>
          { sec with
            todos := sec.todos.map fun todo =>
              if todo.id = editId then { todo with text := newText } else todo })
        next l i hi hi').1
    apply hnotin
    omega

theorem structural_sharing_amended_witness :
    ¬ ((taggedAddTodo "u9" "T" 2
        [⟨0, ⟨"DO_FIRST", "DO FIRST", "bg-green-100", []⟩⟩,
         ⟨1, ⟨"DO_LATER", "DO LATER", "bg-blue-100", []⟩⟩]).2.get
          ⟨0, by decide⟩).tag ∈
      (([⟨0, ⟨"DO_FIRST", "DO FIRST", "bg-green-100", []⟩⟩,
        ⟨1, ⟨"DO_LATER", "DO LATER", "bg-blue-100", []⟩⟩] :
        List TaggedSection).map fun ts => ts.tag) ∧
    ([⟨0, ⟨"DO_FIRST", "DO FIRST", "bg-green-100", []⟩⟩,
      ⟨1, ⟨"DO_LATER", "DO LATER", "bg-blue-100",
        [⟨"u1", "A", false, "DO_LATER"⟩]⟩⟩] :
        List TaggedSection).map (fun ts => ts.tag) =
      ([⟨0, ⟨"DO_FIRST", "DO FIRST", "bg-green-100",
          [⟨"u1", "A", false, "DO_FIRST"⟩]⟩⟩,
        ⟨1, ⟨"DO_LATER", "DO LATER", "bg-blue-100", []⟩⟩] :
        List TaggedSection).map fun ts => ts.tag := by
  constructor
  · exact (structural_sharing_amended "u9" "T" "x" "y" "z" "N" 2 _
      (by decide)).1 0 (by decide) (by decide) (by decide)
  · exact (structural_sharing_amended "u9" "T" "x" "y" "z" "N" 2 _
      (by decide)).2.2.2.2 ⟨⟨"DO_FIRST", 0⟩, some ⟨"DO_LATER", 0⟩⟩ _ rfl
